import Mathlib

/-!
Shallow embedding of the `gsettings` Ansible module (src/system/gsettings.py).

Python strings are modelled as Lean `String`; the character-level operations
the source uses (`split`, `strip`, `replace`, `readline`, slicing, `in`) are
re-implemented over `List Char` with Python semantics, by structural
recursion so that concrete inputs evaluate inside the kernel.
-/

namespace Gsettings

/-- Python whitespace for `str.strip()` / `str.split()` with no arguments. -/
def isPySpace (c : Char) : Bool :=
  c = ' ' || c = '\t' || c = '\n' || c = '\r' || c = '\x0b' || c = '\x0c'

/-- `str.strip()`: drop whitespace from both ends. -/
def stripWs (l : List Char) : List Char :=
  ((l.dropWhile isPySpace).reverse.dropWhile isPySpace).reverse

/-- Split on every character satisfying `p`, keeping empty fields
(Python `str.split(sep)` semantics when `p` recognises the separator). -/
def splitOnPredL (p : Char → Bool) : List Char → List (List Char)
  | [] => [[]]
  | c :: rest =>
    if p c then [] :: splitOnPredL p rest
    else
      match splitOnPredL p rest with
      | [] => [[c]]
      | g :: gs => (c :: g) :: gs

/-- Python `s.split(ch)` for a one-character separator: keeps empty fields. -/
def splitOnCharL (ch : Char) (l : List Char) : List (List Char) :=
  splitOnPredL (fun c => c = ch) l

/-- Python `s.split()` (no argument): split on whitespace runs, no empty fields. -/
def splitWs (l : List Char) : List (List Char) :=
  (splitOnPredL isPySpace l).filter (fun g => !g.isEmpty)

/-- Python substring test `p in l`. -/
def containsSeq (p : List Char) : List Char → Bool
  | [] => p.isEmpty
  | c :: rest => p.isPrefixOf (c :: rest) || containsSeq p rest

/-- Split at the first occurrence of `ch` (Python `l[0:l.index(ch)]` and
`l[l.index(ch)+1:]`); `none` when `ch` is absent (`index` raises ValueError). -/
def breakAtChar (ch : Char) : List Char → Option (List Char × List Char)
  | [] => none
  | c :: rest =>
    if c = ch then some ([], rest)
    else
      match breakAtChar ch rest with
      | none => none
      | some (a, b) => some (c :: a, b)

/-- Python `file.readline()` on a fully buffered string: the prefix up to and
including the first newline, or the whole string when there is none. -/
def takeLine : List Char → List Char
  | [] => []
  | c :: rest => if c = '\n' then [c] else c :: takeLine rest

/-- Reattach the newline separators removed by `splitOnCharL '\n'`, dropping
the empty tail a trailing newline leaves behind. -/
def reGlue : List (List Char) → List (List Char)
  | [] => []
  | [last] => if last.isEmpty then [] else [last]
  | p :: q :: rest => (p ++ ['\n']) :: reGlue (q :: rest)

/-- Python line iteration over a file's contents: each line keeps its
trailing newline, a final unterminated line is kept as is. -/
def linesKeepL (l : List Char) : List (List Char) :=
  reGlue (splitOnCharL '\n' l)

/-- Join entries with a single-character delimiter (builds the test blocks
`proc_environ` consumes). -/
def intercalChar (ch : Char) : List (List Char) → List Char
  | [] => []
  | [e] => e
  | e :: f :: rest => e ++ ch :: intercalChar ch (f :: rest)

/-- Fuelled worker for Python `str.replace(pat, repl)`: non-overlapping,
left-to-right. The fuel only bounds recursion depth; it is always called
with fuel at least the length of the subject. -/
def replaceAllFuel : Nat → List Char → List Char → List Char → List Char
  | 0, _, _, l => l
  | fuel + 1, p, r, l =>
    match l with
    | [] => []
    | c :: rest =>
      if p ≠ [] ∧ p.isPrefixOf (c :: rest) then
        r ++ replaceAllFuel fuel p r (rest.drop (p.length - 1))
      else
        c :: replaceAllFuel fuel p r rest

/-- Python `l.replace(p, r)` for a non-empty pattern `p`. -/
def replaceAll (p r l : List Char) : List Char :=
  replaceAllFuel l.length p r l

/-- Digit-string value, `none` when empty or a non-digit appears
(`int()` raises ValueError). -/
def digitsValAux : List Char → Nat → Option Nat
  | [], acc => some acc
  | c :: rest, acc =>
    if c.isDigit then digitsValAux rest (acc * 10 + (c.toNat - 48)) else none

def digitsVal : List Char → Option Nat
  | [] => none
  | l => digitsValAux l 0

/-- Python `int(s)`: strip whitespace, optional sign, decimal digits. -/
def parseIntL (l : List Char) : Option Int :=
  match stripWs l with
  | '-' :: rest => (digitsVal rest).map (fun n => -(n : Int))
  | '+' :: rest => (digitsVal rest).map (fun n => (n : Int))
  | m => (digitsVal m).map (fun n => (n : Int))

/-- The dynamic value held by `self.session_pid`: the Python code stores the
int `-1` initially, and a decimal string afterwards. -/
inductive PyVal where
  | int (i : Int)
  | str (s : String)
deriving DecidableEq

/-- Python `session_pid != -1`: a string compares unequal to an int in
Python 2, so only the int `-1` itself fails the test. -/
def pyNeMinusOne : PyVal → Bool
  | .int i => i ≠ -1
  | .str _ => true

/-- Python `int(x)` applied to the stored pid. -/
def pyIntVal : PyVal → Option Int
  | .int i => some i
  | .str s => parseIntL s.data

/-- The Python exceptions the module can raise (uncaught, they abort it). -/
inductive PyErr where
  | ioError      -- IOError / OSError opening a /proc file (ENOENT, EACCES)
  | keyError     -- missing dict key / pwd.getpwuid on an unknown uid
  | valueError   -- str.index miss, int() on a non-numeric string
  | typeError    -- os.environ[k] = None, GLib.Variant type mismatch
  | indexError   -- sequence index out of range
  | osError      -- subprocess.Popen cannot start dbus-launch
  | gioAbort     -- Gio.Settings on an unknown schema aborts the process
deriving DecidableEq

instance {ε α : Type} [DecidableEq ε] [DecidableEq α] : DecidableEq (Except ε α) :=
  fun a b =>
    match a, b with
    | .ok x, .ok y =>
      if h : x = y then .isTrue (by rw [h])
      else .isFalse (by intro hh; injection hh; contradiction)
    | .error x, .error y =>
      if h : x = y then .isTrue (by rw [h])
      else .isFalse (by intro hh; injection hh; contradiction)
    | .ok _, .error _ => .isFalse (fun hh => Except.noConfusion hh)
    | .error _, .ok _ => .isFalse (fun hh => Except.noConfusion hh)

/-- Unpacked GVariant payloads, compared structurally (Python `!=`). -/
inductive PyLit where
  | bool (b : Bool)
  | int (i : Int)
  | str (s : String)
  | list (l : List PyLit)

mutual
def PyLit.decEq : (a b : PyLit) → Decidable (a = b)
  | .bool a, .bool b =>
    if h : a = b then .isTrue (by rw [h])
    else .isFalse (by intro hh; injection hh; contradiction)
  | .int a, .int b =>
    if h : a = b then .isTrue (by rw [h])
    else .isFalse (by intro hh; injection hh; contradiction)
  | .str a, .str b =>
    if h : a = b then .isTrue (by rw [h])
    else .isFalse (by intro hh; injection hh; contradiction)
  | .list a, .list b =>
    match PyLit.decEqList a b with
    | .isTrue h => .isTrue (by rw [h])
    | .isFalse h => .isFalse (by intro hh; injection hh; contradiction)
  | .bool _, .int _ => .isFalse (fun hh => PyLit.noConfusion hh)
  | .bool _, .str _ => .isFalse (fun hh => PyLit.noConfusion hh)
  | .bool _, .list _ => .isFalse (fun hh => PyLit.noConfusion hh)
  | .int _, .bool _ => .isFalse (fun hh => PyLit.noConfusion hh)
  | .int _, .str _ => .isFalse (fun hh => PyLit.noConfusion hh)
  | .int _, .list _ => .isFalse (fun hh => PyLit.noConfusion hh)
  | .str _, .bool _ => .isFalse (fun hh => PyLit.noConfusion hh)
  | .str _, .int _ => .isFalse (fun hh => PyLit.noConfusion hh)
  | .str _, .list _ => .isFalse (fun hh => PyLit.noConfusion hh)
  | .list _, .bool _ => .isFalse (fun hh => PyLit.noConfusion hh)
  | .list _, .int _ => .isFalse (fun hh => PyLit.noConfusion hh)
  | .list _, .str _ => .isFalse (fun hh => PyLit.noConfusion hh)

def PyLit.decEqList : (a b : List PyLit) → Decidable (a = b)
  | [], [] => .isTrue rfl
  | [], _ :: _ => .isFalse (fun hh => List.noConfusion hh)
  | _ :: _, [] => .isFalse (fun hh => List.noConfusion hh)
  | x :: xs, y :: ys =>
    match PyLit.decEq x y, PyLit.decEqList xs ys with
    | .isTrue h1, .isTrue h2 => .isTrue (by rw [h1, h2])
    | .isFalse h1, _ => .isFalse (by intro hh; injection hh; contradiction)
    | _, .isFalse h2 => .isFalse (by intro hh; injection hh; contradiction)
end

instance : DecidableEq PyLit := PyLit.decEq

mutual
/-- Python `repr` of a value, as used for elements inside a list's `str`. -/
def pyRepr : PyLit → String
  | .bool true => "True"
  | .bool false => "False"
  | .int i => toString i
  | .str s => "'" ++ s ++ "'"
  | .list l => "[" ++ String.intercalate ", " (pyReprList l) ++ "]"

def pyReprList : List PyLit → List String
  | [] => []
  | v :: rest => pyRepr v :: pyReprList rest
end

/-- Python `str(v)` as produced by `'{...}'.format(v)`. -/
def pyStr : PyLit → String
  | .bool true => "True"
  | .bool false => "False"
  | .int i => toString i
  | .str s => s
  | .list l => "[" ++ String.intercalate ", " (pyReprList l) ++ "]"

/-- `os.environ` modelled as an association list in insertion order;
assignment overwrites in place or appends. -/
def updateEnv (env : List (String × String)) (k v : String) :
    List (String × String) :=
  if env.any (fun p => p.1 = k) then
    env.map (fun p => if p.1 = k then (k, v) else p)
  else env ++ [(k, v)]

def lookupEnv (env : List (String × String)) (k : String) : Option String :=
  (env.find? (fun p => p.1 = k)).map (fun p => p.2)

-- Constants of the module.
def ENV_DBUS : String := "DBUS_SESSION_BUS_ADDRESS"
def ENV_DBUS_PID : String := "DBUS_SESSION_BUS_PID"
def SESSION_MANAGERS : List String :=
  ["gnome-session", "mate-session", "xfce4-session",
   "cinnamon-session", "icewm-session", "openbox-session"]
def SIGTERM : Nat := 15
/-- The fixed grace period of `time.sleep(1)` in `__del__`, in seconds. -/
def gracePeriodSecs : Nat := 1

/-- One entry of `/proc` as the module sees it: the directory name listed by
`os.listdir('/proc')` and the contents of its `status` and `environ` files
(`none` models `open` raising — vanished process or permission denied). -/
structure ProcDir where
  dirname : String
  status : Option String
  environ : Option String
deriving DecidableEq

/-- The operating-system state `Gsettings.__init__` reads: the process table,
the user database (`pwd.getpwuid`), the caller's uid, the caller's initial
environment, and the stdout lines of `dbus-launch` (`none` models `Popen`
failing to start it). -/
structure SysState where
  procDirs : List ProcDir
  uidToName : Int → Option String
  myUid : Int
  initialEnv : List (String × String)
  dbusLaunchOutput : Option (List String)

/-- `proc_name(pid)`: scan the status file for a line containing "Name",
return field 1 of its split on ':', stripped; any exception yields None. -/
def procNameLines : List (List Char) → Option String
  | [] => none
  | attr :: rest =>
    if containsSeq "Name".data attr then
      match (splitOnCharL ':' attr).get? 1 with
      | some s => some (String.mk (stripWs s))
      | none => none
    else procNameLines rest

def proc_name (d : ProcDir) : Option String :=
  match d.status with
  | none => none
  | some content => procNameLines (linesKeepL content.data)

/-- `proc_owner(pid)`: find the `Uid:` line, parse its second whitespace
field as an int and look it up in the user database. Exceptions are not
caught; falling off the loop returns None. -/
def ownerLines (st : SysState) : List (List Char) → Except PyErr (Option String)
  | [] => .ok none
  | ln :: rest =>
    if "Uid:".data.isPrefixOf ln then
      match (splitWs ln).get? 1 with
      | none => .error .indexError
      | some s =>
        match parseIntL s with
        | none => .error .valueError
        | some uid =>
          match st.uidToName uid with
          | none => .error .keyError
          | some uname => .ok (some uname)
    else ownerLines st rest

/-- Re-reading `/proc/<pid>` by directory name; a missing entry makes the
subsequent `open` raise. -/
def procDirOf (st : SysState) (pidStr : String) : Option ProcDir :=
  st.procDirs.find? (fun d => d.dirname = pidStr)

def proc_owner (st : SysState) (pidStr : String) : Except PyErr (Option String) :=
  match procDirOf st pidStr with
  | none => .error .ioError
  | some d =>
    match d.status with
    | none => .error .ioError
    | some content => ownerLines st (linesKeepL content.data)

/-- The parsing core of `proc_environ(pid, varname)`: the loop over
`proc_env.readline().split('\x00')`. Returns the first entry starting with
`varname=` with every occurrence of `varname=` removed (`str.replace`),
None otherwise; an empty varname skips every entry. -/
def envLoop (varname : String) : List (List Char) → Option String
  | [] => none
  | ev :: rest =>
    if varname ≠ "" then
      if (varname ++ "=").data.isPrefixOf ev then
        some (String.mk (replaceAll (varname ++ "=").data [] ev))
      else envLoop varname rest
    else envLoop varname rest

def findEnvVar (content : String) (varname : String) : Option String :=
  envLoop varname (splitOnCharL '\x00' (takeLine content.data))

/-- `proc_environ` itself: open `/proc/<pid>/environ` (no try/except — an
unreadable file raises to the caller) and run the parsing loop. -/
def proc_environ (st : SysState) (pidStr : String) (varname : String) :
    Except PyErr (Option String) :=
  match procDirOf st pidStr with
  | none => .error .ioError
  | some d =>
    match d.environ with
    | none => .error .ioError
    | some content => .ok (findEnvVar content varname)

/-- `bus_address(pid)`. -/
def bus_address (st : SysState) (pidStr : String) : Except PyErr (Option String) :=
  proc_environ st pidStr ENV_DBUS

/-- One iteration of the `new_session` loop: split the printed line at its
first '=' (raising ValueError when absent) and assign into `os.environ`.
`readlines` keeps each line's trailing newline, so the stored value is the
whole remainder of the line, newline included. -/
def processLine (env : List (String × String)) (line : String) :
    Except PyErr (List (String × String)) :=
  match breakAtChar '=' line.data with
  | none => .error .valueError
  | some (k, v) => .ok (updateEnv env (String.mk k) (String.mk v))

def processLines (env : List (String × String)) :
    List String → Except PyErr (List (String × String))
  | [] => .ok env
  | l :: rest =>
    match processLine env l with
    | .error e => .error e
    | .ok env1 => processLines env1 rest

/-- `new_session()`: spawn `dbus-launch`, install every printed KEY=VALUE
assignment into the environment, and return
`os.environ['DBUS_SESSION_BUS_PID'].replace('\n', '')`. -/
def new_session (launch : Option (List String)) (env0 : List (String × String)) :
    Except PyErr (String × List (String × String)) :=
  match launch with
  | none => .error .osError
  | some lines =>
    match processLines env0 lines with
    | .error e => .error e
    | .ok env1 =>
      match lookupEnv env1 ENV_DBUS_PID with
      | none => .error .keyError
      | some pv => .ok (String.mk (replaceAll ['\n'] [] pv.data), env1)

/-- Python `s.isdigit()`: non-empty and all digits. -/
def pyIsDigit (s : String) : Bool :=
  !s.data.isEmpty && s.data.all Char.isDigit

/-- The two nested conditions of the discovery loop:
`procfile.isdigit()` and `proc_name(procfile) in SESSION_MANAGERS`
(a None name is never in the list). -/
def isCandidate (d : ProcDir) : Bool :=
  pyIsDigit d.dirname &&
    (match proc_name d with
     | some n => SESSION_MANAGERS.contains n
     | none => false)

/-- The discovery loop of `__init__`: `self.session_pid` starts at `-1` and
is overwritten by every matching entry in listing order (no break). -/
def scanSessionPid (dirs : List ProcDir) : PyVal :=
  dirs.foldl (fun acc d => if isCandidate d then PyVal.str d.dirname else acc)
    (PyVal.int (-1))

/-- The last entry of the list satisfying `isCandidate`, if any
(specification-side description of the loop's result). -/
def lastCandidate : List ProcDir → Option ProcDir
  | [] => none
  | d :: rest =>
    match lastCandidate rest with
    | some x => some x
    | none => if isCandidate d then some d else none

/-- `proc_owner` / `bus_address` applied to the dynamic `session_pid`
(always a decimal string on the paths that reach them). -/
def proc_owner_pv (st : SysState) : PyVal → Except PyErr (Option String)
  | .str p => proc_owner st p
  | .int _ => .error .ioError

def bus_address_pv (st : SysState) : PyVal → Except PyErr (Option String)
  | .str p => bus_address st p
  | .int _ => .error .ioError

/-- The state a `Gsettings` object holds after `__init__`:
`session_pid`, `_cleanup` (here `cleanup`), and the process environment
as mutated by the constructor. `cleanup = true` is the ephemeral case. -/
structure GsState where
  session_pid : PyVal
  cleanup : Bool
  env : List (String × String)
deriving DecidableEq

/-- `Gsettings.__init__`: scan for a session manager, compare its owner with
the calling user, and either adopt its bus address or launch a new session.
Uncaught Python exceptions surface as `Except.error`. Assigning a missing
(`None`) bus address into `os.environ` raises TypeError (`putenv` rejects
non-strings). -/
def gsInit (st : SysState) : Except PyErr GsState :=
  let session_pid := scanSessionPid st.procDirs
  match st.uidToName st.myUid with
  | none => .error .keyError
  | some osuser =>
    match
      (if pyNeMinusOne session_pid then proc_owner_pv st session_pid
       else .ok (some osuser)) with
    | .error e => .error e
    | .ok sessionuser =>
      if pyNeMinusOne session_pid && decide (some osuser = sessionuser) then
        match bus_address_pv st session_pid with
        | .error e => .error e
        | .ok none => .error .typeError
        | .ok (some addr) =>
          .ok ⟨session_pid, false, updateEnv st.initialEnv ENV_DBUS addr⟩
      else
        match new_session st.dbusLaunchOutput st.initialEnv with
        | .error e => .error e
        | .ok (pid, env1) => .ok ⟨PyVal.str pid, true, env1⟩

/-- The externally visible OS effects of `__del__`. -/
inductive OsAction where
  | sleep (secs : Nat)
  | kill (pid : Int) (sig : Nat)
deriving DecidableEq

/-- `Gsettings.__del__`: only when `_cleanup` is set, sleep for the grace
period and then SIGTERM `int(self.session_pid)`; a pid string that `int()`
rejects raises after the sleep, so no signal is sent. -/
def gsDel (g : GsState) : List OsAction :=
  if g.cleanup then
    match pyIntVal g.session_pid with
    | some n => [.sleep gracePeriodSecs, .kill n SIGTERM]
    | none => [.sleep gracePeriodSecs]
  else []

/-- A GVariant as seen by the module: its type string
(`get_type_string()`) and its unpacked payload (`unpack()`). -/
structure GVariant where
  typeStr : String
  value : PyLit

instance : DecidableEq GVariant := fun a b =>
  match a, b with
  | ⟨t1, v1⟩, ⟨t2, v2⟩ =>
    if h : t1 = t2 ∧ v1 = v2 then .isTrue (by rw [h.1, h.2])
    else .isFalse (by intro hh; cases hh; exact h ⟨rfl, rfl⟩)

/-- One element of the module's `settings` parameter. -/
structure Triplet where
  schema : String
  key : String
  value : PyLit

/-- One write issued through `set_value`. -/
structure WriteRec where
  schema : String
  path : Option String
  key : String
  value : GVariant

instance : DecidableEq WriteRec := fun a b =>
  match a, b with
  | ⟨s1, p1, k1, v1⟩, ⟨s2, p2, k2, v2⟩ =>
    if h : s1 = s2 ∧ p1 = p2 ∧ k1 = k2 ∧ v1 = v2 then
      .isTrue (by rw [h.1, h.2.1, h.2.2.1, h.2.2.2])
    else .isFalse (by intro hh; cases hh; exact h ⟨rfl, rfl, rfl, rfl⟩)

/-- The schema/path disassembly duplicated at the top of `get_value` and
`set_value`: when ':' occurs in the identifier, the path is element 1 of
`schema.split(':')` (which then has at least two elements) and the schema is
element 0; otherwise the path is None. -/
def schemaSplit (schema : String) : String × Option String :=
  if containsSeq [':'] schema.data then
    let parts := splitOnCharL ':' schema.data
    (String.mk ((parts.get? 0).getD []), some (String.mk ((parts.get? 1).getD [])))
  else (schema, none)

/-- The configuration store behind `Gio.Settings`, abstracted as a lookup
by (schema, optional path, key); `none` models a schema/key Gio rejects. -/
def GioStore : Type := String → Option String → String → Option GVariant

/-- `Gsettings.get_value`: split the identifier and read the key. -/
def get_value (store : GioStore) (schema key : String) : Option GVariant :=
  let sp := schemaSplit schema
  store sp.1 sp.2 key

/-- `Gsettings.set_value`: split the identifier and write the key. -/
def set_value (schema key : String) (value : GVariant) : WriteRec :=
  let sp := schemaSplit schema
  ⟨sp.1, sp.2, key, value⟩

/-- A deterministic store overlaid with the writes already issued in this
run (the most recent write to a location wins). -/
def storeWith (store : GioStore) (writes : List WriteRec) : GioStore :=
  fun s p k =>
    match writes.reverse.find?
        (fun w => w.schema = s && w.path = p && w.key = k) with
    | some w => some w.value
    | none => store s p k

/-- The check-mode message
`'{0}/{1} -> current: {2} ; proposed new: {3}'.format(schema, key, old, new)`. -/
def proposedMsg (t : Triplet) (old : PyLit) : String :=
  t.schema ++ "/" ++ t.key ++ " -> current: " ++ pyStr old ++
    " ; proposed new: " ++ pyStr t.value

/-- The apply-mode message
`'{0}/{1} -> old: {2} ; new: {3}'.format(schema, key, old, new)`. -/
def appliedMsg (t : Triplet) (old : PyLit) : String :=
  t.schema ++ "/" ++ t.key ++ " -> old: " ++ pyStr old ++
    " ; new: " ++ pyStr t.value

/-- What `main` hands to `exit_json`: the `changed` flag, the accumulated
`change_msgs`, plus the writes issued against the store. -/
structure MainOutcome where
  changed : Bool
  msgs : List String
  writes : List WriteRec

instance : DecidableEq MainOutcome := fun a b =>
  match a, b with
  | ⟨c1, m1, w1⟩, ⟨c2, m2, w2⟩ =>
    if h : c1 = c2 ∧ m1 = m2 ∧ w1 = w2 then
      .isTrue (by rw [h.1, h.2.1, h.2.2])
    else .isFalse (by intro hh; cases hh; exact h ⟨rfl, rfl, rfl⟩)

/-- The encoder `GLib.Variant(setting_type, value)`, abstracted: `none`
models the constructor raising a TypeError for an unencodable value. -/
def VariantEncoder : Type := String → PyLit → Option GVariant

/-- The loop body of `main` over the settings triplets, threading
`has_changed`, `change_msgs` and the writes issued so far. An uncaught
Python exception (unknown schema, encoding failure) aborts the loop. -/
def mainLoop (store : GioStore) (encode : VariantEncoder) (checkMode : Bool) :
    List Triplet → Bool → List String → List WriteRec →
    Except PyErr MainOutcome
  | [], changed, msgs, writes => .ok ⟨changed, msgs, writes⟩
  | t :: rest, changed, msgs, writes =>
    match get_value (storeWith store writes) t.schema t.key with
    | none => .error .gioAbort
    | some old =>
      if old.value ≠ t.value then
        if checkMode then
          mainLoop store encode checkMode rest true
            (msgs ++ [proposedMsg t old.value]) writes
        else
          match encode old.typeStr t.value with
          | none => .error .typeError
          | some nv =>
            mainLoop store encode checkMode rest true
              (msgs ++ [appliedMsg t old.value])
              (writes ++ [set_value t.schema t.key nv])
      else mainLoop store encode checkMode rest changed msgs writes

/-- `main` after a successful `Gsettings()` construction: run the loop with
`has_changed = False` and `change_msgs = []`. -/
def runMain (store : GioStore) (encode : VariantEncoder) (checkMode : Bool)
    (settings : List Triplet) : Except PyErr MainOutcome :=
  mainLoop store encode checkMode settings false [] []

/-- Whether a triplet's current store value differs from its desired value
(the `old_value != value` test), against the base store. -/
def differsB (store : GioStore) (t : Triplet) : Bool :=
  match get_value store t.schema t.key with
  | some g => decide (g.value ≠ t.value)
  | none => false

/-- The check-mode message a differing triplet contributes. -/
def proposedOf (store : GioStore) (t : Triplet) : String :=
  match get_value store t.schema t.key with
  | some g => proposedMsg t g.value
  | none => ""

/-! ### Concrete states used to instantiate the theorems -/

/-- A process table holding one same-user session manager whose environ
file cannot be read, while `dbus-launch` is available. -/
def envFailState : SysState := {
  procDirs := [
    { dirname := "100",
      status := some "Name:\tgnome-session\nUid:\t1000\t1000\t1000\t1000\n",
      environ := none } ],
  uidToName := fun i => if i = 1000 then some "alice" else none,
  myUid := 1000,
  initialEnv := [],
  dbusLaunchOutput := some ["DBUS_SESSION_BUS_ADDRESS=unix:abstract=/tmp/dbus-Zq\n",
                            "DBUS_SESSION_BUS_PID=4242\n"] }

/-- Two session-manager processes in scan order. -/
def firstMgrDir : ProcDir :=
  { dirname := "100",
    status := some "Name:\tgnome-session\nUid:\t1000\t1000\t1000\t1000\n",
    environ := none }

def secondMgrDir : ProcDir :=
  { dirname := "200",
    status := some "Name:\tmate-session\nUid:\t1000\t1000\t1000\t1000\n",
    environ := none }

/-- A process table with no session-manager process (a non-matching name
and a non-digit /proc entry whose name would match). -/
def noSessState : SysState := {
  procDirs := [
    { dirname := "1", status := some "Name:\tsystemd\nUid:\t0\t0\t0\t0\n",
      environ := none },
    { dirname := "self", status := some "Name:\tgnome-session\n", environ := none } ],
  uidToName := fun i => if i = 0 then some "root" else none,
  myUid := 0,
  initialEnv := [("LANG", "C")],
  dbusLaunchOutput := some ["DBUS_SESSION_BUS_ADDRESS=unix:abstract=/tmp/dbus-Zq\n",
                            "DBUS_SESSION_BUS_PID=4242\n"] }

/-- A store with one boolean and one string setting. -/
def twoKeyStore : GioStore := fun s p k =>
  if s = "org.gnome.a" && p = none && k = "k1" then some ⟨"b", .bool false⟩
  else if s = "org.gnome.b" && p = none && k = "k2" then some ⟨"s", .str "v"⟩
  else none

/-- An encoder that rejects boolean settings and accepts everything else. -/
def boolFailEnc : VariantEncoder := fun t v =>
  if t = "b" then none else some ⟨t, v⟩

def tripA : Triplet := ⟨"org.gnome.a", "k1", .bool true⟩
def tripB : Triplet := ⟨"org.gnome.b", "k2", .str "w"⟩

/-- A store for the check-mode scenario. -/
def checkStoreW : GioStore := fun s p k =>
  if s = "org.example.screensaver" && p = none && k = "lock-enabled" then
    some ⟨"b", .bool false⟩
  else if s = "org.x" && p = none && k = "k2" then some ⟨"s", .str "v"⟩
  else none

def idEncW : VariantEncoder := fun t v => some ⟨t, v⟩

/-- A well-formed two-entry environment block. -/
def envEntriesW : List (List Char) :=
  ["PATH=/usr/bin".data, "DBUS_SESSION_BUS_ADDRESS=unix:path=/run/bus".data]

/-! ### General lemmas about the character-level operations -/

theorem strDataAppend (a b : String) : (a ++ b).data = a.data ++ b.data := by
  cases a; cases b; rfl

theorem strMkData (s : String) : String.mk s.data = s := rfl

theorem isPrefixOf_append_self (p t : List Char) :
    p.isPrefixOf (p ++ t) = true := by
  induction p with
  | nil => simp [List.isPrefixOf]
  | cons c rest ih => simp [List.isPrefixOf, ih]

theorem isPrefixOf_nil_false (c : Char) (p : List Char) :
    (c :: p).isPrefixOf ([] : List Char) = false := rfl

theorem containsSeq_single_of_mem {ch : Char} {l : List Char} (h : ch ∈ l) :
    containsSeq [ch] l = true := by
  induction l with
  | nil => cases h
  | cons c rest ih =>
    rcases List.mem_cons.mp h with h1 | h1
    · subst h1; simp [containsSeq, List.isPrefixOf]
    · simp [containsSeq, ih h1]

theorem containsSeq_single_of_not_mem {ch : Char} {l : List Char} (h : ch ∉ l) :
    containsSeq [ch] l = false := by
  induction l with
  | nil => rfl
  | cons c rest ih =>
    have hc : ch ≠ c := fun hh => h (hh ▸ List.mem_cons_self c rest)
    have hr : ch ∉ rest := fun hh => h (List.mem_cons_of_mem c hh)
    simp [containsSeq, List.isPrefixOf, ih hr, hc]

theorem splitOnPredL_of_none {p : Char → Bool} {l : List Char}
    (h : ∀ c ∈ l, p c = false) : splitOnPredL p l = [l] := by
  induction l with
  | nil => rfl
  | cons c rest ih =>
    have hc := h c (List.mem_cons_self c rest)
    have hr : ∀ x ∈ rest, p x = false := fun x hx => h x (List.mem_cons_of_mem c hx)
    simp [splitOnPredL, hc, ih hr]

theorem splitOnPredL_append {p : Char → Bool} {a : List Char} {ch : Char}
    (rest : List Char) (ha : ∀ c ∈ a, p c = false) (hch : p ch = true) :
    splitOnPredL p (a ++ ch :: rest) = a :: splitOnPredL p rest := by
  induction a with
  | nil => simp [splitOnPredL, hch]
  | cons c tl ih =>
    have hc := ha c (List.mem_cons_self c tl)
    have htl : ∀ x ∈ tl, p x = false := fun x hx => ha x (List.mem_cons_of_mem c hx)
    have h2 := ih htl
    simp only [List.cons_append, splitOnPredL, hc, List.append_eq]
    rw [h2]
    rfl

theorem takeLine_of_no_newline {l : List Char} (h : '\n' ∉ l) :
    takeLine l = l := by
  induction l with
  | nil => rfl
  | cons c rest ih =>
    have hc : c ≠ '\n' := fun hh => h (hh ▸ List.mem_cons_self c rest)
    have hr : '\n' ∉ rest := fun hh => h (List.mem_cons_of_mem c hh)
    simp [takeLine, hc, ih hr]

theorem mem_intercalChar {c ch : Char} {L : List (List Char)}
    (h : c ∈ intercalChar ch L) : c = ch ∨ ∃ e ∈ L, c ∈ e := by
  induction L with
  | nil => cases h
  | cons e rest ih =>
    cases rest with
    | nil =>
      right; exact ⟨e, List.mem_cons_self e [], by simpa [intercalChar] using h⟩
    | cons f tl =>
      simp only [intercalChar] at h
      rcases List.mem_append.mp h with h1 | h1
      · right; exact ⟨e, List.mem_cons_self e _, h1⟩
      · rcases List.mem_cons.mp h1 with h2 | h2
        · left; exact h2
        · rcases ih h2 with h3 | ⟨x, hx, hcx⟩
          · left; exact h3
          · right; exact ⟨x, List.mem_cons_of_mem e hx, hcx⟩

theorem splitOnCharL_intercalChar {ch : Char} {L : List (List Char)}
    (hL : L ≠ []) (h : ∀ e ∈ L, ch ∉ e) :
    splitOnCharL ch (intercalChar ch L) = L := by
  induction L with
  | nil => exact absurd rfl hL
  | cons e rest ih =>
    cases rest with
    | nil =>
      have he : ∀ c ∈ e, (decide (c = ch)) = false := by
        intro c hc
        exact decide_eq_false (fun hcc => h e (List.mem_cons_self e []) (hcc ▸ hc))
      simp only [intercalChar, splitOnCharL]
      exact splitOnPredL_of_none he
    | cons f tl =>
      have he : ∀ c ∈ e, (decide (c = ch)) = false := by
        intro c hc
        exact decide_eq_false (fun hcc => h e (List.mem_cons_self e _) (hcc ▸ hc))
      have hrest : ∀ x ∈ f :: tl, ch ∉ x := fun x hx =>
        h x (List.mem_cons_of_mem e hx)
      simp only [intercalChar, splitOnCharL]
      rw [splitOnPredL_append _ he (by simp)]
      have := ih (by simp) hrest
      simpa [splitOnCharL] using this

theorem breakAtChar_append {ch : Char} {k : List Char} (rest : List Char)
    (h : ch ∉ k) : breakAtChar ch (k ++ ch :: rest) = some (k, rest) := by
  induction k with
  | nil => simp [breakAtChar]
  | cons c tl ih =>
    have hc : c ≠ ch := fun hh => h (hh ▸ List.mem_cons_self c tl)
    have htl : ch ∉ tl := fun hh => h (List.mem_cons_of_mem c hh)
    simp [breakAtChar, hc, ih htl]

theorem replFuel_nil (fuel : Nat) (p r : List Char) :
    replaceAllFuel fuel p r [] = [] := by
  cases fuel <;> rfl

theorem replFuel_no_occ (p r : List Char) :
    ∀ (fuel : Nat) (l : List Char), containsSeq p l = false → l.length ≤ fuel →
      replaceAllFuel fuel p r l = l := by
  intro fuel
  induction fuel with
  | zero => intro l _ _; rfl
  | succ n ih =>
    intro l hc hl
    cases l with
    | nil => rfl
    | cons c rest =>
      simp only [containsSeq, Bool.or_eq_false_iff] at hc
      simp only [replaceAllFuel]
      rw [if_neg (fun hand => absurd hand.2 (by simp [hc.1]))]
      rw [ih rest hc.2 (Nat.succ_le_succ_iff.mp hl)]

theorem replaceAll_strip {p v : List Char} (hp : p ≠ [])
    (hv : containsSeq p v = false) : replaceAll p [] (p ++ v) = v := by
  cases p with
  | nil => exact absurd rfl hp
  | cons pc pr =>
    show replaceAllFuel ((pc :: pr) ++ v).length (pc :: pr) [] ((pc :: pr) ++ v) = v
    simp only [List.cons_append, List.length_cons, List.length_append, replaceAllFuel]
    rw [if_pos ⟨List.cons_ne_nil pc pr, isPrefixOf_append_self (pc :: pr) v⟩]
    simp only [List.length_cons, Nat.add_sub_cancel, List.nil_append]
    rw [List.drop_left]
    exact replFuel_no_occ _ _ _ v hv (by simp)

theorem replFuel_endCh (ch : Char) :
    ∀ (fuel : Nat) (v : List Char), ch ∉ v → v.length + 1 ≤ fuel →
      replaceAllFuel fuel [ch] [] (v ++ [ch]) = v := by
  intro fuel
  induction fuel with
  | zero => intro v _ h; exact absurd h (Nat.not_succ_le_zero _)
  | succ n ih =>
    intro v hv hl
    cases v with
    | nil =>
      simp only [List.nil_append, replaceAllFuel]
      rw [if_pos ⟨List.cons_ne_nil ch [], by simp [List.isPrefixOf]⟩]
      simp [replFuel_nil]
    | cons c v' =>
      have hc : ¬ (ch == c) = true := by
        intro hb
        exact hv (by rw [beq_iff_eq] at hb; rw [hb]; exact List.mem_cons_self c v')
      have hv' : ch ∉ v' := fun hh => hv (List.mem_cons_of_mem c hh)
      simp only [List.cons_append, replaceAllFuel]
      rw [if_neg (fun hand => absurd (by simpa [List.isPrefixOf] using hand.2) hc)]
      rw [ih v' hv' (Nat.succ_le_succ_iff.mp hl)]

/-- `str.replace(ch, '')` of a string ending in `ch` whose body avoids `ch`. -/
theorem replaceAll_endCh {ch : Char} {v : List Char} (hv : ch ∉ v) :
    replaceAll [ch] [] (v ++ [ch]) = v := by
  have : (v ++ [ch]).length = v.length + 1 := by simp
  unfold replaceAll
  rw [this]
  exact replFuel_endCh ch _ v hv (Nat.le_refl _)

/-! ### Lemmas about the environment table -/

theorem lookupEnv_map_self {k v : String} :
    ∀ env : List (String × String), env.any (fun p => p.1 = k) = true →
      lookupEnv (env.map (fun p => if p.1 = k then (k, v) else p)) k = some v := by
  intro env
  induction env with
  | nil => intro h; simp at h
  | cons a rest ih =>
    intro h
    by_cases ha : a.1 = k
    · unfold lookupEnv
      rw [List.map_cons, if_pos ha, List.find?_cons_of_pos _ (by simp)]
      rfl
    · have hr : rest.any (fun p => p.1 = k) = true := by
        rcases List.any_eq_true.mp h with ⟨x, hx, hpx⟩
        rcases List.mem_cons.mp hx with h1 | h1
        · exact absurd (of_decide_eq_true (h1 ▸ hpx)) ha
        · exact List.any_eq_true.mpr ⟨x, h1, hpx⟩
      unfold lookupEnv at ih ⊢
      rw [List.map_cons, if_neg ha, List.find?_cons_of_neg _ (by simp [ha])]
      exact ih hr

theorem lookupEnv_append_self {k v : String} :
    ∀ env : List (String × String), env.any (fun p => p.1 = k) = false →
      lookupEnv (env ++ [(k, v)]) k = some v := by
  intro env
  induction env with
  | nil =>
    intro _
    unfold lookupEnv
    rw [List.nil_append, List.find?_cons_of_pos _ (by simp)]
    rfl
  | cons a rest ih =>
    intro h
    rw [List.any_cons, Bool.or_eq_false_iff] at h
    have ha : ¬ a.1 = k := of_decide_eq_false h.1
    unfold lookupEnv at ih ⊢
    rw [List.cons_append, List.find?_cons_of_neg _ (by simp [ha])]
    exact ih h.2

theorem lookupEnv_update_self (env : List (String × String)) (k v : String) :
    lookupEnv (updateEnv env k v) k = some v := by
  unfold updateEnv
  by_cases h : env.any (fun p => p.1 = k) = true
  · rw [if_pos h]
    exact lookupEnv_map_self env h
  · rw [if_neg h]
    exact lookupEnv_append_self env (Bool.eq_false_iff.mpr h)

theorem lookupEnv_map_other {k v k' : String} (hk : k' ≠ k) :
    ∀ env : List (String × String),
      lookupEnv (env.map (fun p => if p.1 = k then (k, v) else p)) k'
        = lookupEnv env k' := by
  intro env
  induction env with
  | nil => rfl
  | cons a rest ih =>
    unfold lookupEnv at ih ⊢
    rw [List.map_cons]
    by_cases ha : a.1 = k
    · have h1 : ¬ (k = k') := fun hh => hk hh.symm
      have h2 : ¬ (a.1 = k') := by rw [ha]; exact h1
      rw [if_pos ha, List.find?_cons_of_neg _ (by simp [h1]),
        List.find?_cons_of_neg _ (by simp [h2])]
      exact ih
    · rw [if_neg ha]
      by_cases hak : a.1 = k'
      · rw [List.find?_cons_of_pos _ (by simp [hak]),
          List.find?_cons_of_pos _ (by simp [hak])]
      · rw [List.find?_cons_of_neg _ (by simp [hak]),
          List.find?_cons_of_neg _ (by simp [hak])]
        exact ih

theorem lookupEnv_append_other {k v k' : String} (hk : k' ≠ k) :
    ∀ env : List (String × String),
      lookupEnv (env ++ [(k, v)]) k' = lookupEnv env k' := by
  intro env
  induction env with
  | nil =>
    have hkk : ¬ (k = k') := fun hh => hk hh.symm
    unfold lookupEnv
    rw [List.nil_append, List.find?_cons_of_neg _ (by simp [hkk])]
  | cons a rest ih =>
    unfold lookupEnv at ih ⊢
    rw [List.cons_append]
    by_cases hak : a.1 = k'
    · rw [List.find?_cons_of_pos _ (by simp [hak]),
        List.find?_cons_of_pos _ (by simp [hak])]
    · rw [List.find?_cons_of_neg _ (by simp [hak]),
        List.find?_cons_of_neg _ (by simp [hak])]
      exact ih

theorem lookupEnv_update_other (env : List (String × String)) (k v k' : String)
    (hk : k' ≠ k) : lookupEnv (updateEnv env k v) k' = lookupEnv env k' := by
  unfold updateEnv
  by_cases h : env.any (fun p => p.1 = k) = true
  · rw [if_pos h]
    exact lookupEnv_map_other hk env
  · rw [if_neg h]
    exact lookupEnv_append_other hk env

/-! ### Lemmas about session discovery -/

theorem scanFold_eq (dirs : List ProcDir) : ∀ acc : PyVal,
    dirs.foldl (fun acc d => if isCandidate d then PyVal.str d.dirname else acc) acc
      = (lastCandidate dirs).elim acc (fun d => PyVal.str d.dirname) := by
  induction dirs with
  | nil => intro acc; rfl
  | cons d rest ih =>
    intro acc
    simp only [List.foldl_cons, lastCandidate]
    rw [ih]
    cases hlc : lastCandidate rest with
    | some x => simp
    | none =>
      by_cases hd : isCandidate d
      · simp [hd]
      · simp [hd]

theorem lastCandidate_of_none :
    ∀ dirs : List ProcDir, (∀ d ∈ dirs, isCandidate d = false) →
      lastCandidate dirs = none := by
  intro dirs
  induction dirs with
  | nil => intro _; rfl
  | cons d rest ih =>
    intro h
    have hd := h d (List.mem_cons_self d rest)
    have hr := ih (fun x hx => h x (List.mem_cons_of_mem d hx))
    simp [lastCandidate, hr, hd]

/-! ### Lemmas about the environ-parsing loop -/

theorem envLoop_find_some {name : String} (hn : name ≠ "") :
    ∀ (entries : List (List Char)) (e0 : List Char),
      entries.find? (fun e => (name ++ "=").data.isPrefixOf e) = some e0 →
      envLoop name entries
        = some (String.mk (replaceAll (name ++ "=").data [] e0)) := by
  intro entries
  induction entries with
  | nil => intro e0 h; simp [List.find?] at h
  | cons e rest ih =>
    intro e0 h
    by_cases hp : (name ++ "=").data.isPrefixOf e = true
    · rw [List.find?_cons_of_pos _ hp] at h
      have he : e = e0 := by injection h
      subst he
      unfold envLoop
      rw [if_pos hn, if_pos hp]
    · rw [List.find?_cons_of_neg _ hp] at h
      unfold envLoop
      rw [if_pos hn, if_neg hp]
      exact ih e0 h

theorem envLoop_find_none {name : String} (hn : name ≠ "") :
    ∀ entries : List (List Char),
      entries.find? (fun e => (name ++ "=").data.isPrefixOf e) = none →
      envLoop name entries = none := by
  intro entries
  induction entries with
  | nil => intro _; rfl
  | cons e rest ih =>
    intro h
    by_cases hp : (name ++ "=").data.isPrefixOf e = true
    · rw [List.find?_cons_of_pos _ hp] at h
      exact absurd h (by simp)
    · rw [List.find?_cons_of_neg _ hp] at h
      unfold envLoop
      rw [if_pos hn, if_neg hp]
      exact ih h

theorem strExt {a b : String} (h : a.data = b.data) : a = b := by
  cases a
  cases b
  simp only at h
  rw [h]

theorem strAppendAssoc (a b c : String) : a ++ b ++ c = a ++ (b ++ c) :=
  strExt (by simp [strDataAppend, List.append_assoc])

/-! ### The check-mode behaviour of the main loop -/

theorem mainLoop_check (store : GioStore) (encode : VariantEncoder) :
    ∀ (ts : List Triplet) (ch : Bool) (ms : List String),
      (∀ t ∈ ts, get_value store t.schema t.key ≠ none) →
      mainLoop store encode true ts ch ms [] =
        .ok ⟨ch || ts.any (differsB store),
             ms ++ (ts.filter (differsB store)).map (proposedOf store), []⟩ := by
  intro ts
  induction ts with
  | nil => intro ch ms _; simp [mainLoop]
  | cons t rest ih =>
    intro ch ms hall
    have ht := hall t (List.mem_cons_self _ _)
    have hrest : ∀ x ∈ rest, get_value store x.schema x.key ≠ none :=
      fun x hx => hall x (List.mem_cons_of_mem t hx)
    obtain ⟨g, hg⟩ : ∃ g, get_value store t.schema t.key = some g := by
      cases hgv : get_value store t.schema t.key with
      | none => exact absurd hgv ht
      | some g => exact ⟨g, rfl⟩
    have hsw : get_value (storeWith store []) t.schema t.key
        = get_value store t.schema t.key := rfl
    unfold mainLoop
    rw [hsw, hg]
    dsimp only
    by_cases hd : g.value = t.value
    · rw [if_neg (fun hne => hne hd)]
      rw [ih ch ms hrest]
      have hdb : differsB store t = false := by
        simp [differsB, hg, hd]
      simp [List.any_cons, List.filter_cons, hdb]
    · rw [if_pos hd]
      rw [ih true (ms ++ [proposedMsg t g.value]) hrest]
      have hdb : differsB store t = true := by
        simp [differsB, hg, hd]
      have hpo : proposedOf store t = proposedMsg t g.value := by
        simp [proposedOf, hg]
      simp [List.any_cons, List.filter_cons, hdb, hpo, List.append_assoc]

/-! ### The claims -/

/-- C1 counterexample: a same-user session-manager candidate whose environ
file cannot be read makes `Gsettings.__init__` die with the uncaught read
error even though `dbus-launch` is available — the failure is not absorbed
into the spawn fallback. -/
theorem claim_C1_counterexample :
    gsInit envFailState = Except.error PyErr.ioError ∧
      envFailState.dbusLaunchOutput ≠ none := ⟨by decide, by decide⟩

/-- C1 (amended): an environment-read failure while attempting to reuse an
existing same-user session is not absorbed: `proc_environ` opens the file
outside any try/except, so the error propagates out of the constructor as
fatal. The spawn fallback runs only when no candidate is found or the
candidate belongs to a different user. -/
theorem claim_C1 (st : SysState) (p osuser : String) (e : PyErr)
    (hu : st.uidToName st.myUid = some osuser)
    (hscan : scanSessionPid st.procDirs = PyVal.str p)
    (howner : proc_owner st p = Except.ok (some osuser))
    (hbus : bus_address st p = Except.error e) :
    gsInit st = Except.error e := by
  unfold gsInit
  rw [hscan, hu]
  dsimp only
  have hne : pyNeMinusOne (PyVal.str p) = true := rfl
  rw [hne]
  dsimp only [proc_owner_pv]
  rw [if_pos rfl]
  rw [howner]
  dsimp only
  rw [if_pos (by simp)]
  dsimp only [bus_address_pv]
  rw [hbus]

/-- C1 witness: the amended statement applied to the concrete state. -/
theorem claim_C1_witness : gsInit envFailState = Except.error PyErr.ioError :=
  claim_C1 envFailState "100" "alice" PyErr.ioError (by decide) (by decide)
    (by decide) (by decide)

/-- C2 counterexample: with two session-manager processes in scan order the
loop (which has no break) selects pid "200", the second one, not the first
("100"). -/
theorem claim_C2_counterexample :
    isCandidate firstMgrDir = true ∧ isCandidate secondMgrDir = true ∧
    scanSessionPid [firstMgrDir, secondMgrDir] = PyVal.str "200" ∧
    PyVal.str "200" ≠ PyVal.str "100" := ⟨by decide, by decide, by decide, by decide⟩

/-- C2 (amended): at most one candidate is selected, and it is the LAST
process in scan order whose directory name is numeric and whose name is in
the fixed session-manager list — each later match overwrites the earlier,
with no other tie-break. -/
theorem claim_C2 (dirs : List ProcDir) :
    scanSessionPid dirs
      = (lastCandidate dirs).elim (PyVal.int (-1)) (fun d => PyVal.str d.dirname) :=
  scanFold_eq dirs (PyVal.int (-1))

/-- C3: when no process name matches a known session-manager name, discovery
leaves `session_pid = -1` and the constructor spawns an ephemeral bus daemon
(`_cleanup = true` on the resulting state). -/
theorem claim_C3 (st : SysState) (osuser pid : String)
    (env1 : List (String × String))
    (hu : st.uidToName st.myUid = some osuser)
    (hnone : ∀ d ∈ st.procDirs, isCandidate d = false)
    (hlaunch : new_session st.dbusLaunchOutput st.initialEnv
        = Except.ok (pid, env1)) :
    gsInit st = Except.ok ⟨PyVal.str pid, true, env1⟩ := by
  have hscan : scanSessionPid st.procDirs = PyVal.int (-1) := by
    unfold scanSessionPid
    rw [scanFold_eq, lastCandidate_of_none _ hnone]
    rfl
  unfold gsInit
  rw [hscan, hu]
  dsimp only
  have hne : pyNeMinusOne (PyVal.int (-1)) = false := by decide
  rw [hne]
  rw [if_neg (by simp)]
  dsimp only
  rw [if_neg (by simp)]
  rw [hlaunch]

/-- C3 witness: a table with only non-matching processes spawns an
ephemeral daemon. -/
theorem claim_C3_witness :
    gsInit noSessState = Except.ok ⟨PyVal.str "4242", true,
      [("LANG", "C"), (ENV_DBUS, "unix:abstract=/tmp/dbus-Zq\n"),
       (ENV_DBUS_PID, "4242\n")]⟩ :=
  claim_C3 noSessState "root" "4242"
    [("LANG", "C"), (ENV_DBUS, "unix:abstract=/tmp/dbus-Zq\n"),
     (ENV_DBUS_PID, "4242\n")]
    (by decide) (by decide) (by decide)

/-- C4: `__del__` sends a termination signal only when `_cleanup` is set
(the ephemeral case); disposal of a reused, non-ephemeral connection
performs no OS action at all. -/
theorem claim_C4 (g : GsState) :
    (g.cleanup = false → gsDel g = []) ∧
      (∀ p s, OsAction.kill p s ∈ gsDel g → g.cleanup = true) := by
  constructor
  · intro h
    simp [gsDel, h]
  · intro p s hmem
    cases hcb : g.cleanup with
    | true => rfl
    | false =>
      unfold gsDel at hmem
      rw [hcb] at hmem
      simp at hmem

/-- C4 witness: disposal of a non-ephemeral state does nothing. -/
theorem claim_C4_witness : gsDel ⟨PyVal.str "123", false, []⟩ = [] :=
  (claim_C4 ⟨PyVal.str "123", false, []⟩).1 rfl

/-- C5: on the ephemeral path, disposal's first action is the fixed
grace-period sleep, and every termination signal it sends comes strictly
after it. -/
theorem claim_C5 (g : GsState) (hc : g.cleanup = true) :
    ∃ rest, gsDel g = OsAction.sleep gracePeriodSecs :: rest ∧
      ∀ p s, OsAction.kill p s ∈ gsDel g → OsAction.kill p s ∈ rest := by
  cases hpi : pyIntVal g.session_pid with
  | some n =>
    have hdel : gsDel g = [OsAction.sleep gracePeriodSecs, OsAction.kill n SIGTERM] := by
      simp [gsDel, hc, hpi]
    refine ⟨[OsAction.kill n SIGTERM], hdel, ?_⟩
    intro p s hm
    rw [hdel] at hm
    rcases List.mem_cons.mp hm with h1 | h1
    · exact absurd h1 (by simp)
    · exact h1
  | none =>
    have hdel : gsDel g = [OsAction.sleep gracePeriodSecs] := by
      simp [gsDel, hc, hpi]
    refine ⟨[], hdel, ?_⟩
    intro p s hm
    rw [hdel] at hm
    rcases List.mem_cons.mp hm with h1 | h1
    · exact absurd h1 (by simp)
    · cases h1

/-- C5 witness: disposal of an ephemeral state sleeps first. -/
theorem claim_C5_witness :
    ∃ rest, gsDel ⟨PyVal.str "4242", true, []⟩
        = OsAction.sleep gracePeriodSecs :: rest ∧
      ∀ p s, OsAction.kill p s ∈ gsDel ⟨PyVal.str "4242", true, []⟩ →
        OsAction.kill p s ∈ rest :=
  claim_C5 ⟨PyVal.str "4242", true, []⟩ rfl

/-- C6 counterexample: for the identifier "a:b:c" the code takes element 1
of the full split, yielding path "b", not everything after the first
delimiter ("b:c"). -/
theorem claim_C6_counterexample :
    schemaSplit "a:b:c" = ("a", some "b") ∧ (some "b" : Option String) ≠ some "b:c" :=
  ⟨by decide, by decide⟩

theorem splitColon_two {a : String} (rest : List Char) (ha : ':' ∉ a.data) :
    splitOnCharL ':' (a.data ++ ':' :: rest) = a.data :: splitOnCharL ':' rest := by
  unfold splitOnCharL
  exact splitOnPredL_append rest
    (fun c hc => decide_eq_false (fun hcc => ha (hcc ▸ hc))) (by simp)

theorem splitColon_one {a : String} (ha : ':' ∉ a.data) :
    splitOnCharL ':' a.data = [a.data] := by
  unfold splitOnCharL
  exact splitOnPredL_of_none
    (fun c hc => decide_eq_false (fun hcc => ha (hcc ▸ hc)))

/-- C6 (amended): `get_value`/`set_value` split the identifier on every
':' and use field 0 as the schema and field 1 as the path — the segment
between the first and second delimiter. Without a delimiter there is no
path; with exactly one delimiter this coincides with "everything after
the first ':'", but with more delimiters the remainder is dropped. -/
theorem claim_C6 (a b c : String) (ha : ':' ∉ a.data) (hb : ':' ∉ b.data) :
    schemaSplit a = (a, none) ∧
    schemaSplit (a ++ ":" ++ b) = (a, some b) ∧
    schemaSplit (a ++ ":" ++ b ++ ":" ++ c) = (a, some b) := by
  refine ⟨?_, ?_, ?_⟩
  · unfold schemaSplit
    rw [if_neg (by simp [containsSeq_single_of_not_mem ha])]
  · have hdata : (a ++ ":" ++ b).data = a.data ++ ':' :: b.data := by
      rw [strDataAppend, strDataAppend]
      simp
    unfold schemaSplit
    rw [hdata, if_pos (containsSeq_single_of_mem (by simp))]
    rw [splitColon_two _ ha, splitColon_one hb]
    rfl
  · have hdata : (a ++ ":" ++ b ++ ":" ++ c).data
        = a.data ++ ':' :: (b.data ++ ':' :: c.data) := by
      rw [strDataAppend, strDataAppend, strDataAppend, strDataAppend]
      simp
    unfold schemaSplit
    rw [hdata, if_pos (containsSeq_single_of_mem (by simp))]
    rw [splitColon_two _ ha, splitColon_two _ hb]
    rfl

/-- C6 witness: the amended split applied to concrete identifiers. -/
theorem claim_C6_witness :
    schemaSplit "org.gnome.desktop" = ("org.gnome.desktop", none) ∧
    schemaSplit ("org.gnome.desktop" ++ ":" ++ "/org/p")
      = ("org.gnome.desktop", some "/org/p") ∧
    schemaSplit ("org.gnome.desktop" ++ ":" ++ "/org/p" ++ ":" ++ "x")
      = ("org.gnome.desktop", some "/org/p") :=
  claim_C6 "org.gnome.desktop" "/org/p" "x" (by decide) (by decide)

/-- C7 counterexample: with an encoder that rejects the first (boolean)
triplet, the whole batch dies with the uncaught TypeError and the second
triplet — processable on its own, as the second conjunct shows — is never
reached; no per-triplet error result is produced. -/
theorem claim_C7_counterexample :
    runMain twoKeyStore boolFailEnc false [tripA, tripB]
        = Except.error PyErr.typeError ∧
    runMain twoKeyStore boolFailEnc false [tripB]
        = Except.ok ⟨true, ["org.gnome.b/k2 -> old: v ; new: w"],
            [⟨"org.gnome.b", none, "k2", ⟨"s", .str "w"⟩⟩]⟩ :=
  ⟨by decide, by decide⟩

/-- C7 (amended): in apply mode, a desired value that cannot be encoded as
the existing setting's type raises an uncaught TypeError that aborts the
whole batch at that triplet, regardless of the remaining triplets. -/
theorem claim_C7 (store : GioStore) (encode : VariantEncoder) (t : Triplet)
    (rest : List Triplet) (changed : Bool) (msgs : List String)
    (writes : List WriteRec) (g : GVariant)
    (hg : get_value (storeWith store writes) t.schema t.key = some g)
    (hd : g.value ≠ t.value) (henc : encode g.typeStr t.value = none) :
    mainLoop store encode false (t :: rest) changed msgs writes
      = Except.error PyErr.typeError := by
  unfold mainLoop
  rw [hg]
  dsimp only
  rw [if_pos hd]
  rw [if_neg (by simp)]
  rw [henc]

/-- C7 witness: the batch of the counterexample aborts at its first
triplet. -/
theorem claim_C7_witness :
    mainLoop twoKeyStore boolFailEnc false [tripA, tripB] false [] []
      = Except.error PyErr.typeError :=
  claim_C7 twoKeyStore boolFailEnc tripA [tripB] false [] [] ⟨"b", .bool false⟩
    (by decide) (by decide) (by decide)

/-- C8 counterexample: two divergences from the stated contract. An entry
`X=X=1` (variable X with value `X=1`) yields `1` because `str.replace`
deletes every occurrence of `X=`, not just the leading one; and in the
block `A=1\nQ\x00B=2` the entry for B is invisible because `readline`
stops at the newline inside A's value. -/
theorem claim_C8_counterexample :
    (findEnvVar "X=X=1" "X" = some "1" ∧ ("1" : String) ≠ "X=1") ∧
    findEnvVar (String.mk (intercalChar '\x00' ["A=1\nQ".data, "B=2".data])) "B"
      = none :=
  ⟨⟨by decide, by decide⟩, by decide⟩

/-- C8 (amended): for a null-delimited block free of newline characters,
the extractor returns exactly the value of the requested variable when the
first entry starting with `name=` is `name=value` and the value does not
itself contain `name=` as a substring; it returns none when no entry
starts with `name=`. -/
theorem claim_C8 (entries : List (List Char)) (name value : String)
    (hn : name ≠ "")
    (hclean : ∀ e ∈ entries, '\x00' ∉ e ∧ '\n' ∉ e) :
    (entries.find? (fun e => (name ++ "=").data.isPrefixOf e)
        = some ((name ++ "=").data ++ value.data) →
      containsSeq (name ++ "=").data value.data = false →
      findEnvVar (String.mk (intercalChar '\x00' entries)) name = some value) ∧
    (entries.find? (fun e => (name ++ "=").data.isPrefixOf e) = none →
      findEnvVar (String.mk (intercalChar '\x00' entries)) name = none) := by
  have hpne : (name ++ "=").data ≠ [] := by
    rw [strDataAppend]
    simp
  have hnl : '\n' ∉ intercalChar '\x00' entries := by
    intro hmem
    rcases mem_intercalChar hmem with h | ⟨e, he, hce⟩
    · exact absurd h (by decide)
    · exact (hclean e he).2 hce
  have hfv : findEnvVar (String.mk (intercalChar '\x00' entries)) name
      = envLoop name (splitOnCharL '\x00' (intercalChar '\x00' entries)) := by
    unfold findEnvVar
    rw [takeLine_of_no_newline hnl]
  cases hent : entries with
  | nil =>
    subst hent
    constructor
    · intro hfind _
      exact absurd hfind (by simp [List.find?])
    · intro _
      rw [hfv]
      show envLoop name [[]] = none
      unfold envLoop
      rw [if_pos hn]
      cases hl : (name ++ "=").data with
      | nil => exact absurd hl hpne
      | cons ch cs =>
        rw [if_neg (by simp [List.isPrefixOf])]
        rfl
  | cons e0 tl =>
    subst hent
    have hsplit : splitOnCharL '\x00' (intercalChar '\x00' (e0 :: tl)) = e0 :: tl :=
      splitOnCharL_intercalChar (by simp) (fun x hx => (hclean x hx).1)
    rw [hfv, hsplit]
    constructor
    · intro hfind hocc
      rw [envLoop_find_some hn (e0 :: tl) _ hfind]
      rw [replaceAll_strip hpne hocc]
    · intro hfind
      exact envLoop_find_none hn (e0 :: tl) hfind

/-- C8 witness: the amended statement applied to a well-formed block. -/
theorem claim_C8_witness :
    findEnvVar (String.mk (intercalChar '\x00' envEntriesW))
        "DBUS_SESSION_BUS_ADDRESS" = some "unix:path=/run/bus" :=
  (claim_C8 envEntriesW "DBUS_SESSION_BUS_ADDRESS" "unix:path=/run/bus"
      (by decide) (by decide)).1 (by decide) (by decide)

/-- C9: in check mode, every triplet whose current store value differs from
the desired one is recorded as a proposed change, no write is ever issued,
and the `changed` flag is true exactly when at least one triplet
differed. -/
theorem claim_C9 (store : GioStore) (encode : VariantEncoder) (ts : List Triplet)
    (hall : ∀ t ∈ ts, get_value store t.schema t.key ≠ none) :
    runMain store encode true ts
      = Except.ok ⟨ts.any (differsB store),
          (ts.filter (differsB store)).map (proposedOf store), []⟩ := by
  have h := mainLoop_check store encode ts false [] hall
  simpa [runMain] using h

/-- C9 witness: the check-mode scenario of the specification, with a second
already-conforming triplet producing no record. -/
theorem claim_C9_witness :
    runMain checkStoreW idEncW true
        [⟨"org.example.screensaver", "lock-enabled", .bool true⟩,
         ⟨"org.x", "k2", .str "v"⟩]
      = Except.ok ⟨true,
          ["org.example.screensaver/lock-enabled -> current: False ; proposed new: True"],
          []⟩ :=
  (claim_C9 checkStoreW idEncW
      [⟨"org.example.screensaver", "lock-enabled", .bool true⟩,
       ⟨"org.x", "k2", .str "v"⟩] (by decide)).trans (by decide)

/-- C10: each KEY=VALUE line printed by `dbus-launch` is installed into the
environment with its full remainder after the first '=', trailing newline
included; only the returned daemon pid is newline-stripped, so the stored
bus address is the printed address plus a trailing newline. -/
theorem claim_C10 :
    (∀ (env : List (String × String)) (key v : String), '=' ∉ key.data →
        processLine env (key ++ "=" ++ v) = Except.ok (updateEnv env key v)) ∧
    (∀ (env0 : List (String × String)) (addr pid : String), '\n' ∉ pid.data →
        ∃ env1,
          new_session (some [ENV_DBUS ++ "=" ++ addr ++ "\n",
              ENV_DBUS_PID ++ "=" ++ pid ++ "\n"]) env0
            = Except.ok (pid, env1) ∧
          lookupEnv env1 ENV_DBUS = some (addr ++ "\n") ∧
          lookupEnv env1 ENV_DBUS_PID = some (pid ++ "\n")) := by
  have parta : ∀ (env : List (String × String)) (key v : String), '=' ∉ key.data →
      processLine env (key ++ "=" ++ v) = Except.ok (updateEnv env key v) := by
    intro env key v hkey
    have hdata : (key ++ "=" ++ v).data = key.data ++ '=' :: v.data := by
      rw [strDataAppend, strDataAppend]
      simp
    unfold processLine
    rw [hdata, breakAtChar_append _ hkey]
  refine ⟨parta, ?_⟩
  intro env0 addr pid hpid
  have h1 : processLine env0 (ENV_DBUS ++ "=" ++ addr ++ "\n")
      = Except.ok (updateEnv env0 ENV_DBUS (addr ++ "\n")) := by
    rw [strAppendAssoc]
    exact parta env0 ENV_DBUS (addr ++ "\n") (by decide)
  have h2 : processLine (updateEnv env0 ENV_DBUS (addr ++ "\n"))
        (ENV_DBUS_PID ++ "=" ++ pid ++ "\n")
      = Except.ok (updateEnv (updateEnv env0 ENV_DBUS (addr ++ "\n"))
          ENV_DBUS_PID (pid ++ "\n")) := by
    rw [strAppendAssoc]
    exact parta _ ENV_DBUS_PID (pid ++ "\n") (by decide)
  refine ⟨updateEnv (updateEnv env0 ENV_DBUS (addr ++ "\n"))
      ENV_DBUS_PID (pid ++ "\n"), ?_, ?_, ?_⟩
  · unfold new_session
    dsimp only
    unfold processLines
    rw [h1]
    dsimp only
    unfold processLines
    rw [h2]
    dsimp only
    unfold processLines
    dsimp only
    rw [lookupEnv_update_self]
    dsimp only
    have hpd : (pid ++ "\n").data = pid.data ++ ['\n'] := by
      rw [strDataAppend]
    rw [hpd, replaceAll_endCh hpid]
  · rw [lookupEnv_update_other _ _ _ _ (by decide), lookupEnv_update_self]
  · rw [lookupEnv_update_self]

/-- C10 witness: a concrete helper output installs the address with its
newline and returns the stripped pid. -/
theorem claim_C10_witness :
    processLine [] ("KEY" ++ "=" ++ "value\n")
        = Except.ok (updateEnv [] "KEY" "value\n") ∧
    ∃ env1, new_session (some [ENV_DBUS ++ "=" ++ "unix:abstract=/tmp/dbus-w" ++ "\n",
        ENV_DBUS_PID ++ "=" ++ "4242" ++ "\n"]) []
        = Except.ok ("4242", env1) ∧
      lookupEnv env1 ENV_DBUS = some ("unix:abstract=/tmp/dbus-w" ++ "\n") ∧
      lookupEnv env1 ENV_DBUS_PID = some ("4242" ++ "\n") :=
  ⟨claim_C10.1 [] "KEY" "value\n" (by decide),
   claim_C10.2 [] "unix:abstract=/tmp/dbus-w" "4242" (by decide)⟩

end Gsettings
